import Mathlib

/-!
Shallow embedding of the consensus-critical arithmetic of the syfer-core
node (CryptoNoteCore), translated from `src/CryptoNoteCore/Currency.cpp`,
`src/CryptoNoteCore/Blockchain.cpp`, `src/CryptoNoteCore/TransactionPool.h`,
`src/CryptoNoteConfig.h` and `src/Common/Math.h`.

Machine integers are modelled as `Nat` with explicit reductions modulo
`2^64` (resp. `2^32`) at the operations where the C++ code can wrap.
Cryptographic primitives (signature verification) are parameters of the
embedded functions, as in the source they are opaque external calls.
-/

namespace Syfer

/-- `2^64`, the modulus of `uint64_t` arithmetic. -/
def U64 : Nat := 18446744073709551616

/-- `2^32`, the modulus of `uint32_t` arithmetic. -/
def U32 : Nat := 4294967296

/-- `uint64_t` subtraction `a - b` (both operands already reduced mod `2^64`). -/
def sub64 (a b : Nat) : Nat := (a + U64 - b) % U64

/-- `uint32_t` subtraction `a - b` (both operands already reduced mod `2^32`). -/
def sub32 (a b : Nat) : Nat := (a + U32 - b) % U32

/-! ### Chain parameters (`src/CryptoNoteConfig.h`, mainnet values as
installed by `CurrencyBuilder::CurrencyBuilder`) -/

/-- `parameters::MONEY_SUPPLY`. -/
def moneySupply : Nat := 9999000000000000

/-- `parameters::COIN`. -/
def COIN : Nat := 1000000

/-- `parameters::POINT`. -/
def POINT : Nat := 1000

/-- `START_BLOCK_REWARD = 5000 * POINT`. -/
def START_BLOCK_REWARD : Nat := 5000 * POINT

/-- `FOUNDATION_TRUST = 1000000 * COIN`. -/
def FOUNDATION_TRUST : Nat := 1000000 * COIN

/-- `FOUNDATION_TRUST1 = 800000000 * COIN` (local constant in Currency.cpp). -/
def FOUNDATION_TRUST1 : Nat := 800000000 * COIN

/-- `MAX_BLOCK_REWARD = 15 * COIN`. -/
def MAX_BLOCK_REWARD : Nat := 15 * COIN

/-- `MAX_BLOCK_REWARD_V1 = 6 * COIN`. -/
def MAX_BLOCK_REWARD_V1 : Nat := 6 * COIN

/-- `MAX_BLOCK_REWARD_V2 = 12 * COIN`. -/
def MAX_BLOCK_REWARD_V2 : Nat := 12 * COIN

/-- `REWARD_INCREASE_INTERVAL`. -/
def REWARD_INCREASE_INTERVAL : Nat := 21900

/-- `parameters::UPGRADE_HEIGHT_V8` (mainnet), installed as `m_upgradeHeightV8`. -/
def upgradeHeightV8 : Nat := 601

/-- `parameters::UPGRADE_HEIGHT_V9` (mainnet), installed as `m_upgradeHeightV9`. -/
def upgradeHeightV9 : Nat := 6000

/-- `parameters::MINIMUM_FEE`. -/
def MINIMUM_FEE : Nat := 10

/-- `parameters::CRYPTONOTE_MAX_BLOCK_NUMBER`, returned by `maxBlockHeight()`. -/
def maxBlockHeight : Nat := 500000000

/-- `parameters::CRYPTONOTE_LOCKED_TX_ALLOWED_DELTA_BLOCKS`. -/
def lockedTxAllowedDeltaBlocks : Nat := 1

/-- `parameters::CRYPTONOTE_LOCKED_TX_ALLOWED_DELTA_SECONDS = 120`. -/
def lockedTxAllowedDeltaSeconds : Nat := 120

/-- `parameters::CRYPTONOTE_DISPLAY_DECIMAL_POINT`, installed as
`m_numberOfDecimalPlaces`. -/
def numberOfDecimalPlaces : Nat := 6

/-- `parameters::BLOCKCHAIN_TIMESTAMP_CHECK_WINDOW`, installed as
`m_timestampCheckWindow`. -/
def timestampCheckWindow : Nat := 30

/-- `parameters::CRYPTONOTE_BLOCK_FUTURE_TIME_LIMIT`, installed as
`m_blockFutureTimeLimit`. -/
def blockFutureTimeLimit : Nat := 7200

/-- `parameters::CRYPTONOTE_REWARD_BLOCKS_WINDOW`, installed as
`m_rewardBlocksWindow`. -/
def rewardBlocksWindow : Nat := 100

/-- `parameters::CRYPTONOTE_BLOCK_GRANTED_FULL_REWARD_ZONE`, installed as
`m_blockGrantedFullRewardZone`. -/
def blockGrantedFullRewardZone : Nat := 100000

/-- `parameters::DIFFICULTY_TARGET`, installed as `m_difficultyTarget`. -/
def difficultyTarget : Nat := 120

/-- `parameters::DIFFICULTY_WINDOW = 720`, installed as `m_difficultyWindow`;
`DIFFICULTY_WINDOW_V1 = DIFFICULTY_WINDOW_V2 = DIFFICULTY_WINDOW`, so
`difficultyWindowByBlockVersion` returns 720 for major versions 1..3. -/
def difficultyWindow : Nat := 720

/-- `parameters::DIFFICULTY_CUT = 60`, installed as `m_difficultyCut`;
`DIFFICULTY_CUT_V1 = DIFFICULTY_CUT_V2 = DIFFICULTY_CUT`, so
`difficultyCutByBlockVersion` returns 60 for major versions 1..3. -/
def difficultyCut : Nat := 60

/-- `parameters::ZAWY_DIFFICULTY_BLOCK_INDEX`, installed as
`m_zawyDifficultyBlockIndex`. -/
def zawyDifficultyBlockIndex : Nat := 0

/-- `parameters::ZAWY_DIFFICULTY_FIX`, installed as `m_zawyDifficultyV2`. -/
def zawyDifficultyV2 : Nat := 1

/-- `parameters::ZAWY_DIFFICULTY_BLOCK_VERSION`, installed as
`m_zawyDifficultyBlockVersion`. -/
def zawyDifficultyBlockVersion : Nat := 0

/-- `parameters::DEPOSIT_MIN_TERM_V3`, installed as `m_depositMinTermV3`. -/
def depositMinTermV3 : Nat := 21900

/-- `parameters::DEPOSIT_HEIGHT_V3`, installed as `m_depositHeightV3`. -/
def depositHeightV3 : Nat := 580

/-- `parameters::DEPOSIT_MAX_TERM`, installed as `m_depositMaxTerm`. -/
def depositMaxTerm : Nat := 262800

/-- `parameters::DEPOSIT_MAX_TOTAL_RATE`, installed as `m_depositMaxTotalRate`. -/
def depositMaxTotalRate : Nat := 4

/-- `parameters::DEPOSIT_MIN_TOTAL_RATE_FACTOR`, installed as
`m_depositMinTotalRateFactor`. -/
def depositMinTotalRateFactor : Nat := 0

/-- `parameters::MULTIPLIER_FACTOR`. -/
def MULTIPLIER_FACTOR : Nat := 100

/-- `parameters::END_MULTIPLIER_BLOCK`. -/
def END_MULTIPLIER_BLOCK : Nat := 101

/-- `parameters::BLOCK_WITH_MISSING_INTEREST` (mainnet), installed as
`m_blockWithMissingInterest`. -/
def blockWithMissingInterest : Nat := 0

/-! ### Base reward (`Currency::baseRewardFunction`, Currency.cpp:165) -/

/-- `Currency::REWARD_INCREASING_FACTOR` (Currency.cpp:55): 49 entries,
`0, 250000, …, 12000000` in steps of 250000. -/
def REWARD_INCREASING_FACTOR : List Nat :=
  [0, 250000, 500000, 750000,
   1000000, 1250000, 1500000, 1750000,
   2000000, 2250000, 2500000, 2750000,
   3000000, 3250000, 3500000, 3750000,
   4000000, 4250000, 4500000, 4750000,
   5000000, 5250000, 5500000, 5750000,
   6000000, 6250000, 6500000, 6750000,
   7000000, 7250000, 7500000, 7750000,
   8000000, 8250000, 8500000, 8750000,
   9000000, 9250000, 9500000, 9750000,
   10000000, 10250000, 10500000, 10750000,
   11000000, 11250000, 11500000, 11750000,
   12000000]

/-- `Currency::baseRewardFunction(alreadyGeneratedCoins, height)`
(Currency.cpp:165-202).  The two foundation-trust heights and heights
1..100 return early, before the `MAX_BLOCK_REWARD` and remaining-supply
clamps; the final `m_moneySupply - alreadyGeneratedCoins` is `uint64_t`
subtraction. -/
def baseRewardFunction (alreadyGeneratedCoins height : Nat) : Nat :=
  if height = 56450 then FOUNDATION_TRUST1
  else if height = 59215 then FOUNDATION_TRUST1 * 10
  else if 1 ≤ height ∧ height < 101 then FOUNDATION_TRUST
  else
    let base_reward :=
      if height > upgradeHeightV9 then MAX_BLOCK_REWARD_V2
      else if height > upgradeHeightV8 then MAX_BLOCK_REWARD_V1
      else
        let incrIntervals := height / REWARD_INCREASE_INTERVAL
        START_BLOCK_REWARD + REWARD_INCREASING_FACTOR.getD incrIntervals 0
    min (min base_reward MAX_BLOCK_REWARD) (sub64 moneySupply alreadyGeneratedCoins)

/-! ### Transaction pool priority comparator
(`tx_memory_pool::TransactionPriorityComparator`, TransactionPool.h:149-168) -/

/-- The fields of `tx_memory_pool::TransactionDetails` that the priority
comparator reads (TransactionPool.h:136-143). -/
structure TransactionDetails where
  fee : Nat
  blobSize : Nat
  receiveTime : Nat

/-- `TransactionPriorityComparator::operator()` (TransactionPool.h:151-167):
`lhs` sorts strictly before `rhs`.  `mul128(a, b)` yields the exact 128-bit
product split into high (`/ 2^64`) and low (`% 2^64`) words. -/
def txPriorityBefore (lhs rhs : TransactionDetails) : Bool :=
  let lhsProd := lhs.fee * rhs.blobSize
  let rhsProd := rhs.fee * lhs.blobSize
  let lhs_hi := lhsProd / U64
  let lhs_lo := lhsProd % U64
  let rhs_hi := rhsProd / U64
  let rhs_lo := rhsProd % U64
  (lhs_hi > rhs_hi) ||
  (lhs_hi == rhs_hi && lhs_lo > rhs_lo) ||
  (lhs_hi == rhs_hi && lhs_lo == rhs_lo && lhs.blobSize < rhs.blobSize) ||
  (lhs_hi == rhs_hi && lhs_lo == rhs_lo && lhs.blobSize == rhs.blobSize &&
    lhs.receiveTime < rhs.receiveTime)

/-! ### Deposit interest (`Currency::calculateInterest`,
`Currency::getInterestForInput`, Currency.cpp:265-435) -/

/-- The fields of `cn::MultisignatureInput` (data model §3): declared
`amount`, `signatureCount`, `outputIndex` into the per-amount multisignature
output vector, and deposit `term`. -/
structure MultisigInput where
  amount : Nat
  signatureCount : Nat
  outputIndex : Nat
  term : Nat

/-- The legacy (V1) integer branch of `Currency::calculateInterest`
(Currency.cpp:285-307): `a = term * maxTotalRate - minTotalRateFactor`
(`uint64_t`), the 128-bit product `amount * a` divided by
`100 * depositMaxTerm`, multiplied by `MULTIPLIER_FACTOR` for
`lockHeight <= END_MULTIPLIER_BLOCK`; only the low 64-bit words of the
`mul128`/`div128_32` results are returned. -/
def calculateInterestV1 (amount term lockHeight : Nat) : Nat :=
  let a := sub64 ((term * depositMaxTotalRate) % U64) depositMinTotalRateFactor
  let b := amount * a
  let c := b / (100 * depositMaxTerm)
  if lockHeight ≤ END_MULTIPLIER_BLOCK then (c * MULTIPLIER_FACTOR) % U64
  else c % U64

/-- `Currency::calculateInterest(amount, term, lockHeight)`
(Currency.cpp:265-308).  The V3 (monthly, Currency.cpp:400-424) and V2
(quarterly/weekly, Currency.cpp:312-398) branches compute with `float`
arithmetic; they are taken as parameters `v3` and `v2` of the embedding,
selected by exactly the conditions of the source. -/
def calculateInterest (v2 v3 : Nat → Nat → Nat) (amount term lockHeight : Nat) : Nat :=
  if term % depositMinTermV3 = 0 ∧ lockHeight > depositHeightV3 then v3 amount term
  else if term % 64800 = 0 then v2 amount term
  else if term % 5040 = 0 then v2 amount term
  else calculateInterestV1 amount term lockHeight

/-- `Currency::getInterestForInput(input, height)` (Currency.cpp:426-435):
`lockHeight = height - input.term` in `uint32_t` arithmetic, redefined to
`height` itself when `height == m_blockWithMissingInterest`. -/
def getInterestForInput (v2 v3 : Nat → Nat → Nat) (input : MultisigInput)
    (height : Nat) : Nat :=
  let lockHeight := if height = blockWithMissingInterest then height
                    else sub32 height input.term
  calculateInterest v2 v3 input.amount input.term lockHeight

/-! ### Transaction data model (spec §3, `cn::Transaction`) -/

/-- `cn::MultisignatureOutput` (data model §3): signer `keys`,
`requiredSignatureCount`, deposit `term`.  Public keys are opaque 32-byte
values, modelled as `Nat`. -/
structure MultisigOutput where
  keys : List Nat
  requiredSignatureCount : Nat
  term : Nat

/-- `cn::TransactionOutput::target` — tagged union of `KeyOutput` and
`MultisignatureOutput` (data model §3). -/
inductive TxOutTarget where
  | key (k : Nat)
  | multisig (out : MultisigOutput)

/-- `cn::TransactionOutput`: declared `amount` plus target. -/
structure TransactionOutput where
  amount : Nat
  target : TxOutTarget

/-- `cn::TransactionInput` — tagged union of `BaseInput` (coinbase),
`KeyInput` and `MultisignatureInput` (data model §3).  Of `KeyInput` only
the `amount` field is relevant to the embedded functions. -/
inductive TransactionInput where
  | base (blockIndex : Nat)
  | keyIn (amount : Nat)
  | multisig (input : MultisigInput)

/-- `cn::Transaction` restricted to the fields the embedded functions
read: `unlockTime`, `inputs`, `outputs`. -/
structure Transaction where
  unlockTime : Nat
  inputs : List TransactionInput
  outputs : List TransactionOutput

/-- The zero-initialized transaction, used as the out-of-range default of
list accesses that the C++ code performs on `std::vector` (reached only
under state invariants that the theorems assume). -/
def defaultTransaction : Transaction := ⟨0, [], []⟩

/-- Default output for out-of-range accesses. -/
def defaultOutput : TransactionOutput := ⟨0, TxOutTarget.key 0⟩

/-! ### Transaction fee (`Currency::getTransactionFee`, Currency.cpp:479-532) -/

/-- Modelled from the spec: `cn::is_coinbase` is declared in
`CryptoNoteFormatUtils.h` but its body is not under `src/`.  Spec §3 marks
`BaseInput` as the coinbase input kind and §4.3 requires a coinbase to have
exactly one input, of `BaseInput` type. -/
def is_coinbase (tx : Transaction) : Bool :=
  match tx.inputs with
  | [TransactionInput.base _] => true
  | _ => false

/-- Modelled from the spec: the body of `Currency::input_amount_visitor`
(used by `Currency::getTransactionInputAmount`, Currency.cpp:459-462) is in
the `Currency.h` header, which is not under `src/`.  Per the spec data
model (§3) a `BaseInput` carries no amount and the other inputs carry a
declared `amount`; per §4.6 and the glossary a deposit withdrawal
(`term > 0`) redeems `amount + currency-defined interest`, computed by
`getInterestForInput` at the spending height (`uint64_t` addition). -/
def getTransactionInputAmount (v2 v3 : Nat → Nat → Nat) (height : Nat) :
    TransactionInput → Nat
  | TransactionInput.base _ => 0
  | TransactionInput.keyIn amount => amount
  | TransactionInput.multisig m =>
      if m.term = 0 then m.amount
      else (m.amount + getInterestForInput v2 v3 m height) % U64

/-- The `amount_in` accumulator of `Currency::getTransactionFee`
(Currency.cpp:490-493), a `uint64_t` sum. -/
def txInputSum (v2 v3 : Nat → Nat → Nat) (height : Nat) (tx : Transaction) : Nat :=
  tx.inputs.foldl (fun acc i => (acc + getTransactionInputAmount v2 v3 height i) % U64) 0

/-- The `amount_out` accumulator of `Currency::getTransactionFee`
(Currency.cpp:495-498), a `uint64_t` sum. -/
def txOutputSum (tx : Transaction) : Nat :=
  tx.outputs.foldl (fun acc o => (acc + o.amount) % U64) 0

/-- `Currency::getTransactionFee(tx, fee, height)` (Currency.cpp:479-519):
`none` models `return false` with no fee produced. -/
def getTransactionFee (v2 v3 : Nat → Nat → Nat) (tx : Transaction)
    (height : Nat) : Option Nat :=
  if is_coinbase tx then some 0
  else
    let amount_in := txInputSum v2 v3 height tx
    let amount_out := txOutputSum tx
    if amount_out > amount_in then
      if tx.inputs.length > 0 ∧ ¬ tx.outputs.isEmpty ∧
          amount_out > (amount_in + MINIMUM_FEE) % U64 then
        some MINIMUM_FEE
      else none
    else some (amount_in - amount_out)

/-- The single-result overload `Currency::getTransactionFee(tx, height)`
(Currency.cpp:523-532): reports fee 0 when the two-result overload fails. -/
def getTransactionFeeSimple (v2 v3 : Nat → Nat → Nat) (tx : Transaction)
    (height : Nat) : Nat :=
  match getTransactionFee v2 v3 tx height with
  | some fee => fee
  | none => 0

/-! ### Block reward and coinbase validation
(`Currency::getBlockReward`, Currency.cpp:240-261;
`Blockchain::validate_miner_transaction`, Blockchain.cpp:1299-1331) -/

/-- `common::medianValue` (Common/Math.h:16-31) at `uint64_t`: sort, take
the middle element (odd length) or the `uint64_t` average of the two middle
elements (even length). -/
def median64 (v : List Nat) : Nat :=
  if v.isEmpty then 0
  else if v.length = 1 then v.headD 0
  else
    let s := List.insertionSort (· ≤ ·) v
    let n := v.length / 2
    if v.length % 2 = 1 then s.getD n 0
    else ((s.getD (n - 1) 0 + s.getD n 0) % U64) / 2

/-- Modelled from the spec: the body of `Currency::getPenalizedAmount`
(declared in the `Currency.h` header, which is not under `src/`; called at
Currency.cpp:254-255).  Spec §4.1: the reward is penalized when
`block_size > median_size` by the CryptoNote penalty formula
`amount * blockSize * (2*median - blockSize) / median^2`, evaluated as a
128-bit product divided twice by the 32-bit truncation of `median`; the
unpenalized amount is returned when `block_size ≤ median_size`. -/
def getPenalizedAmount (amount medianSize currentBlockSize : Nat) : Nat :=
  if amount = 0 then 0
  else if currentBlockSize ≤ medianSize then amount
  else
    let mult := (currentBlockSize * sub64 ((2 * medianSize) % U64) currentBlockSize) % U64
    (amount * mult / (medianSize % U32) / (medianSize % U32)) % U64

/-- Sign conversion of a `uint64_t` value stored into an `int64_t`
(`emissionChange` in `Currency::getBlockReward`). -/
def int64OfNat (v : Nat) : Int :=
  if v < 9223372036854775808 then (v : Int) else (v : Int) - (U64 : Int)

/-- `Currency::getBlockReward(medianSize, currentBlockSize,
alreadyGeneratedCoins, fee, height, reward, emissionChange)`
(Currency.cpp:240-261); `none` models `return false`. -/
def getBlockReward (medianSize currentBlockSize alreadyGeneratedCoins fee
    height : Nat) : Option (Nat × Int) :=
  let baseReward := baseRewardFunction alreadyGeneratedCoins height
  let m := max medianSize blockGrantedFullRewardZone
  if currentBlockSize > 2 * m then none
  else
    let penalizedBaseReward := getPenalizedAmount baseReward m currentBlockSize
    let penalizedFee := getPenalizedAmount fee m currentBlockSize
    some ((penalizedBaseReward + penalizedFee) % U64,
          int64OfNat (sub64 penalizedBaseReward (sub64 fee penalizedFee)))

/-- The suffix of the chain's block sizes collected by
`Blockchain::get_last_n_blocks_sizes` / `getBackwardBlocksSize`
(Blockchain.cpp:1333-1366): the last `min (length, n)` entries in chain
order ([] for an empty chain). -/
def lastN (l : List Nat) (n : Nat) : List Nat :=
  l.drop (l.length - min l.length n)

/-- The `minerReward` accumulator of `validate_miner_transaction`
(Blockchain.cpp:1303-1307): `uint64_t` sum of the coinbase output amounts. -/
def coinbaseOutputSum (outputAmounts : List Nat) : Nat :=
  outputAmounts.foldl (fun acc a => (acc + a) % U64) 0

/-- `Blockchain::validate_miner_transaction(b, height, cumulativeBlockSize,
alreadyGeneratedCoins, fee, reward, emissionChange)`
(Blockchain.cpp:1299-1331), with the chain state abstracted to the list of
stored `block_cumulative_size` values and the coinbase abstracted to its
output amounts. -/
def validate_miner_transaction (outputAmounts blockSizes : List Nat)
    (height cumulativeBlockSize alreadyGeneratedCoins fee : Nat) : Bool :=
  let minerReward := coinbaseOutputSum outputAmounts
  let blocksSizeMedian := median64 (lastN blockSizes rewardBlocksWindow)
  match getBlockReward blocksSizeMedian cumulativeBlockSize
      alreadyGeneratedCoins fee height with
  | none => false
  | some (reward, _) =>
    if minerReward > reward ∧ minerReward - reward > 10 then false
    else if minerReward < reward then false
    else true

/-! ### Multisignature input validation
(`Blockchain::validateInput`, Blockchain.cpp:2922-2998) -/

/-- `cn::TransactionIndex`: position of a transaction in the block store. -/
structure TransactionIndex where
  block : Nat
  transaction : Nat

/-- `cn::MultisignatureOutputUsage`: entry of
`m_multisignatureOutputs[amount]` — location of the output plus its
`isUsed` double-spend flag. -/
structure MultisignatureOutputUsage where
  transactionIndex : TransactionIndex
  outputIndex : Nat
  isUsed : Bool

/-- The part of the `Blockchain` state that `validateInput` and
`is_tx_spendtime_unlocked` read: the block store (`m_blocks`, each block
abstracted to its materialized transaction list), the multisignature
output map (`m_multisignatureOutputs`, `none` models an absent amount
key), and the local clock (`time(nullptr)`). -/
structure BlockchainState where
  blocks : List (List Transaction)
  msigOutputs : Nat → Option (List MultisignatureOutputUsage)
  time : Nat

/-- `Blockchain::getCurrentBlockchainHeight` (Blockchain.cpp:455-459):
`m_blocks.size()` truncated to `uint32_t`. -/
def getCurrentBlockchainHeight (st : BlockchainState) : Nat :=
  st.blocks.length % U32

/-- `Blockchain::is_tx_spendtime_unlocked(unlock_time)`
(Blockchain.cpp:2121-2142).  In the block-index branch
`getCurrentBlockchainHeight() - 1` is `uint32_t` arithmetic, then promoted
to `uint64_t` by the addition of `lockedTxAllowedDeltaBlocks()`. -/
def is_tx_spendtime_unlocked (st : BlockchainState) (unlock_time : Nat) : Bool :=
  if unlock_time < maxBlockHeight then
    decide (sub32 (getCurrentBlockchainHeight st) 1 + lockedTxAllowedDeltaBlocks ≥ unlock_time)
  else
    decide (st.time + lockedTxAllowedDeltaSeconds ≥ unlock_time)

/-- The signature-matching loop of `Blockchain::validateInput`
(Blockchain.cpp:2978-2995): walk the output keys; a successful
`crypto::check_signature` consumes the current transaction signature;
running out of keys with signatures still required fails.  `check` is the
abstract `crypto::check_signature(transactionPrefixHash, key, sig)`. -/
def msigScan (check : Nat → Nat → Bool) : List Nat → List Nat → Nat → Bool
  | _, _, 0 => true
  | [], _, _ + 1 => false
  | k :: ks, sigs, n + 1 =>
    if check k (sigs.headD 0) then msigScan check ks sigs.tail n
    else msigScan check ks sigs (n + 1)

/-- `Blockchain::validateInput(input, transactionHash,
transactionPrefixHash, transactionSignatures)` (Blockchain.cpp:2922-2998)
for a `MultisignatureInput`.  `boost::get<MultisignatureOutput>` on a
non-multisignature target (unreachable under the state invariant asserted
by the source) is modelled as rejection. -/
def validateInput (st : BlockchainState) (check : Nat → Nat → Bool)
    (input : MultisigInput) (sigs : List Nat) : Bool :=
  match st.msigOutputs input.amount with
  | none => false
  | some amountOutputs =>
    if input.outputIndex ≥ amountOutputs.length then false
    else
      let usage := amountOutputs.getD input.outputIndex ⟨⟨0, 0⟩, 0, true⟩
      if usage.isUsed then false
      else
        let outputTransaction :=
          (st.blocks.getD usage.transactionIndex.block []).getD
            usage.transactionIndex.transaction defaultTransaction
        if ¬ is_tx_spendtime_unlocked st outputTransaction.unlockTime then false
        else
          match (outputTransaction.outputs.getD usage.outputIndex defaultOutput).target with
          | TxOutTarget.key _ => false
          | TxOutTarget.multisig output =>
            if input.signatureCount ≠ output.requiredSignatureCount then false
            else if input.term ≠ output.term then false
            else if output.term ≠ 0 ∧
                (usage.transactionIndex.block + output.term) % U32 >
                  getCurrentBlockchainHeight st then false
            else msigScan check output.keys sigs input.signatureCount

/-! ### Block timestamp checks on the push path
(`Blockchain::check_block_timestamp_main` / `check_block_timestamp`,
Blockchain.cpp:2238-2272; enforced by `pushBlock`, Blockchain.cpp:2460) -/

/-- `Blockchain::check_block_timestamp(timestamps, b)`
(Blockchain.cpp:2256-2272). -/
def check_block_timestamp (timestamps : List Nat) (bTimestamp : Nat) : Bool :=
  if timestamps.length < timestampCheckWindow then true
  else decide (¬ bTimestamp < median64 timestamps)

/-- `Blockchain::check_block_timestamp_main(b)` (Blockchain.cpp:2238-2254):
`chainTimestamps` is the list of stored block timestamps in chain order
(`m_blocks[*].bl.timestamp`), `now` the value of `get_adjusted_time()`. -/
def check_block_timestamp_main (chainTimestamps : List Nat)
    (now bTimestamp : Nat) : Bool :=
  if bTimestamp > now + blockFutureTimeLimit then false
  else
    let offset := if chainTimestamps.length ≤ timestampCheckWindow then 0
                  else chainTimestamps.length - timestampCheckWindow
    check_block_timestamp (chainTimestamps.drop offset) bTimestamp

/-- Main chains reachable through the `pushBlock` timestamp gate
(Blockchain.cpp:2460-2466): an entry is a stored block's
`(timestamp, local time at acceptance)`; the genesis entry (height 0) is
unconstrained, every later block passed `check_block_timestamp_main`
against the chain below it at its own acceptance time. -/
inductive ReachableChain : List (Nat × Nat) → Prop where
  | genesis (g : Nat × Nat) : ReachableChain [g]
  | push (s : List (Nat × Nat)) (ts now : Nat) :
      ReachableChain s →
      check_block_timestamp_main (s.map Prod.fst) now ts = true →
      ReachableChain (s ++ [(ts, now)])

/-! ### Classic difficulty (`Currency::nextDifficulty(version, blockIndex,
timestamps, cumulativeDifficulties)`, Currency.cpp:905-1061) -/

/-- `Currency::difficultyWindowByBlockVersion` (Currency.cpp:121-143):
`DIFFICULTY_WINDOW_V4 = DIFFICULTY_WINDOW_V3 = 60` for versions ≥ 4,
`m_difficultyWindow = DIFFICULTY_WINDOW_V2 = DIFFICULTY_WINDOW_V1 = 720`
otherwise. -/
def difficultyWindowByBlockVersion (version : Nat) : Nat :=
  if version ≥ 8 then 60
  else if version ≥ 4 then 60
  else if version ≥ 2 then difficultyWindow
  else if version = 1 then difficultyWindow
  else difficultyWindow

/-- `Currency::difficultyCutByBlockVersion` (Currency.cpp:147-161):
`m_difficultyCut = DIFFICULTY_CUT_V2 = DIFFICULTY_CUT_V1 = 60` in every
branch. -/
def difficultyCutByBlockVersion (version : Nat) : Nat :=
  if version ≥ 2 then difficultyCut
  else if version = 1 then difficultyCut
  else difficultyCut

/-- The dead fallback branch of `Currency::nextDifficulty` guarded by
`m_zawyDifficultyBlockIndex && m_zawyDifficultyBlockIndex <= blockIndex`
(Currency.cpp:986-1058): recompute over the last `min(17, length)`
original entries with window 17 and cut 0, floor-divide and clamp to a
minimum of 100. -/
def nextDifficultyZawyIndexFallback (ts_o cd_o : List Nat)
    (resizedLength : Nat) : Nat :=
  let t_window := min 17 resizedLength
  let ts_tmp := ts_o.drop (ts_o.length - t_window)
  let cd_tmp := cd_o.drop (cd_o.length - t_window)
  if ts_tmp.length ≤ 1 then 1
  else
    let sorted := List.insertionSort (· ≤ ·) ts_tmp
    let timeSpan0 := sub64 (sorted.getD (ts_tmp.length - 1) 0) (sorted.getD 0 0)
    let timeSpan := if timeSpan0 = 0 then 1 else timeSpan0
    let totalWork := sub64 (cd_tmp.getD (ts_tmp.length - 1) 0) (cd_tmp.getD 0 0)
    let product := totalWork * difficultyTarget
    if product / U64 ≠ 0 ∨ U64 - 1 - product % U64 < timeSpan - 1 then 0
    else max (product % U64 / timeSpan) 100

/-- `Currency::nextDifficulty(version, blockIndex, timestamps,
cumulativeDifficulties)` (Currency.cpp:905-1061) with the mainnet
parameters: `m_zawyDifficultyV2 = ZAWY_DIFFICULTY_FIX = 1` forces
`c_zawyDifficultyBlockVersion = 2`, so versions ≥ 2 take the
floor-division branch; `m_zawyDifficultyBlockIndex = 0` keeps the
block-index fallback dead; version 1 reaches the final rounded-up
division. -/
def nextDifficultyMain (version blockIndex : Nat)
    (timestamps cumulativeDifficulties : List Nat) : Nat :=
  let window := difficultyWindowByBlockVersion version
  let cut := difficultyCutByBlockVersion version
  let ts := if timestamps.length > window then timestamps.take window else timestamps
  let cd := if timestamps.length > window then cumulativeDifficulties.take window
            else cumulativeDifficulties
  if ts.length ≤ 1 then 1
  else
    let sorted := List.insertionSort (· ≤ ·) ts
    let cutBegin := if ts.length ≤ window - 2 * cut then 0
                    else (ts.length - (window - 2 * cut) + 1) / 2
    let cutEnd := if ts.length ≤ window - 2 * cut then ts.length
                  else cutBegin + (window - 2 * cut)
    let timeSpan0 := sub64 (sorted.getD (cutEnd - 1) 0) (sorted.getD cutBegin 0)
    let timeSpan := if timeSpan0 = 0 then 1 else timeSpan0
    let totalWork := sub64 (cd.getD (cutEnd - 1) 0) (cd.getD cutBegin 0)
    let product := totalWork * difficultyTarget
    let high := product / U64
    let low := product % U64
    if high ≠ 0 ∨ U64 - 1 - low < timeSpan - 1 then 0
    else if version ≥ 2 then
      if high ≠ 0 then 0 else low / timeSpan
    else if zawyDifficultyBlockIndex ≠ 0 ∧ zawyDifficultyBlockIndex ≤ blockIndex then
      if high ≠ 0 then 0
      else nextDifficultyZawyIndexFallback timestamps cumulativeDifficulties ts.length
    else (low + timeSpan - 1) / timeSpan

/-! ### LWMA3 difficulty (`Currency::nextDifficultyLWMA3`,
Currency.cpp:1082-1169) -/

/-- One iteration of the LWMA3 solvetime loop (Currency.cpp:1129-1150);
the accumulator is `(previous_timestamp, L, sum_3_ST)`, all `uint64_t`. -/
def lwma3Step (timestamps : List Nat) (N : Nat) (acc : Nat × Nat × Nat)
    (i : Nat) : Nat × Nat × Nat :=
  let previous := acc.1
  let this_timestamp := if timestamps.getD i 0 > previous then timestamps.getD i 0
                        else (previous + 1) % U64
  let ST := min (6 * 120) (sub64 this_timestamp previous)
  (this_timestamp,
   (acc.2.1 + ST * i) % U64,
   if i > N - 3 then (acc.2.2 + ST) % U64 else acc.2.2)

/-- The LWMA3 solvetime loop (Currency.cpp:1128-1150): final
`(previous_timestamp, L, sum_3_ST)` after iterations `i = 1..N` starting
from `previous_timestamp = timestamps[0]`. -/
def lwma3Acc (timestamps : List Nat) (N : Nat) : Nat × Nat × Nat :=
  (List.range' 1 N).foldl (lwma3Step timestamps N) (timestamps.headD 0, 0, 0)

/-- `Currency::nextDifficultyLWMA3(timestamps, cumulative_difficulties,
height)` (Currency.cpp:1082-1169) with `T = 120`, `N = 60`. -/
def nextDifficultyLWMA3 (timestamps cumulative_difficulties : List Nat)
    (height : Nat) : Nat :=
  if height = 56630 then 100
  else if height ≥ 59212 then 1000
  else if timestamps.length ≤ 10 then 100
  else
    let N := if timestamps.length < 60 + 1 then timestamps.length - 1 else 60
    let res := lwma3Acc timestamps N
    let L := res.2.1
    let sum_3_ST := res.2.2
    let next_D0 :=
      ((((sub64 (cumulative_difficulties.getD N 0)
            (cumulative_difficulties.getD 0 0) * 120) % U64 * (N + 1)) % U64
          * 99) % U64) / ((100 * 2 * L) % U64)
    let prev_D := sub64 (cumulative_difficulties.getD N 0)
      (cumulative_difficulties.getD (N - 1) 0)
    let next_D := max ((prev_D * 67) % U64 / 100)
      (min next_D0 ((prev_D * 150) % U64 / 100))
    if sum_3_ST < 8 * 120 / 10 then max next_D ((prev_D * 108) % U64 / 100)
    else next_D

/-! ### Amount formatting and parsing
(`Currency::formatAmount`, Currency.cpp:771-781;
`Currency::parseAmount`, Currency.cpp:799-844)

Strings are modelled as lists of byte values (`List Nat`). -/

/-- C `isdigit` on a byte value. -/
def isDigitCode (c : Nat) : Bool := 48 ≤ c && c ≤ 57

/-- C `isspace` on a byte value (space and the five control whitespace
characters), the classifier of `boost::algorithm::trim`. -/
def isSpaceCode (c : Nat) : Bool := c = 32 || (9 ≤ c && c ≤ 13)

/-- `boost::algorithm::trim`: drop leading and trailing whitespace. -/
def trimCodes (s : List Nat) : List Nat :=
  ((s.dropWhile isSpaceCode).reverse.dropWhile isSpaceCode).reverse

/-- The decimal digits of `n`, most significant first (`[0]` for zero) —
the digit sequence produced by `std::to_string` on an unsigned value. -/
def decimalDigits (n : Nat) : List Nat :=
  if n < 10 then [n]
  else decimalDigits (n / 10) ++ [n % 10]
decreasing_by exact Nat.div_lt_self (by omega) (by omega)

/-- `std::to_string(amount)` as a byte string. -/
def toDecimalCodes (n : Nat) : List Nat :=
  (decimalDigits n).map (fun d => 48 + d)

/-- `Currency::formatAmount(uint64_t)` (Currency.cpp:771-781) with
`m_numberOfDecimalPlaces = 6`: left-pad the decimal representation with
zeros to at least 7 characters, then insert `.` before the last 6. -/
def formatAmount (amount : Nat) : List Nat :=
  let s0 := toDecimalCodes amount
  let s := if s0.length < numberOfDecimalPlaces + 1 then
             List.replicate (numberOfDecimalPlaces + 1 - s0.length) 48 ++ s0
           else s0
  s.take (s.length - numberOfDecimalPlaces) ++ 46 :: s.drop (s.length - numberOfDecimalPlaces)

/-- The numeric value of a string of digit characters, most significant
first. -/
def digitsVal (s : List Nat) : Nat :=
  s.foldl (fun acc c => acc * 10 + (c - 48)) 0

/-- Modelled from the spec: `common::fromString<uint64_t>`
(Common/StringTools.h, not under `src/`) wraps `std::istringstream`
extraction of a `uint64_t` — on a non-empty all-digit decimal string it
succeeds iff the value fits in 64 bits. -/
def fromStringU64 (s : List Nat) : Option Nat :=
  if s.isEmpty then none
  else if ¬ s.all isDigitCode then none
  else if digitsVal s < U64 then some (digitsVal s) else none

/-- The trailing-zero-stripping loop of `Currency::parseAmount`
(Currency.cpp:810-814): erase the last character while it is `0` and more
than `m_numberOfDecimalPlaces` fractional characters remain. -/
def stripTrailingZeros (s : List Nat) (fractionSize : Nat) : List Nat × Nat :=
  if h : numberOfDecimalPlaces < fractionSize then
    if s.getLast? = some 48 then stripTrailingZeros s.dropLast (fractionSize - 1)
    else (s, fractionSize)
  else (s, fractionSize)
decreasing_by simp only [numberOfDecimalPlaces] at h; omega

/-- The tail of `Currency::parseAmount` after the decimal point has been
handled (Currency.cpp:828-843): non-empty all-digit check, right-pad with
zeros to 6 fractional digits, numeric conversion. -/
def parseAmountTail (s : List Nat) (fractionSize : Nat) : Option Nat :=
  if s.isEmpty then none
  else if ¬ s.all isDigitCode then none
  else fromStringU64
    (if fractionSize < numberOfDecimalPlaces then
       s ++ List.replicate (numberOfDecimalPlaces - fractionSize) 48
     else s)

/-- `std::string::find_first_of('.')`: index of the first occurrence of
the point character (code 46), `none` for `npos`. -/
def findPointIndex : List Nat → Option Nat
  | [] => none
  | c :: t => if c = 46 then some 0 else (findPointIndex t).map (· + 1)

/-- `Currency::parseAmount(str, amount)` (Currency.cpp:799-844); `none`
models `return false`. -/
def parseAmount (str : List Nat) : Option Nat :=
  let strAmount := trimCodes str
  match findPointIndex strAmount with
  | some pointIndex =>
    let fractionSize := strAmount.length - pointIndex - 1
    let stripped := stripTrailingZeros strAmount fractionSize
    if numberOfDecimalPlaces < stripped.2 then none
    else parseAmountTail (stripped.1.eraseIdx pointIndex) stripped.2
  | none => parseAmountTail strAmount 0

/-! ### Concrete instances used by individual counterexamples and
witnesses -/

/-- A deposit-creating transaction whose `unlockTime` (a block index below
`CRYPTONOTE_MAX_BLOCK_NUMBER`) is still locked at height 1. -/
def lockedDepositTx : Transaction :=
  ⟨400000000, [], [⟨100, TxOutTarget.multisig ⟨[5], 1, 1⟩⟩]⟩

/-- Chain state holding only `lockedDepositTx`, with its multisignature
output registered and unused. -/
def lockedDepositState : BlockchainState :=
  ⟨[[lockedDepositTx]],
   fun a => if a = 100 then some [⟨⟨0, 0⟩, 0, false⟩] else none,
   0⟩

/-- Same deposit as `lockedDepositTx` but with `unlockTime = 0`
(immediately spendable). -/
def unlockedDepositTx : Transaction :=
  ⟨0, [], [⟨100, TxOutTarget.multisig ⟨[5], 1, 1⟩⟩]⟩

/-- Chain state holding only `unlockedDepositTx`. -/
def unlockedDepositState : BlockchainState :=
  ⟨[[unlockedDepositTx]],
   fun a => if a = 100 then some [⟨⟨0, 0⟩, 0, false⟩] else none,
   0⟩

/-- The multisignature input spending the single deposit output of the
states above. -/
def depositSpendInput : MultisigInput := ⟨100, 1, 0, 1⟩

/-- 62 timestamps (more than the LWMA3 window `N + 1 = 61`). -/
def lwma3LongTs : List Nat := List.replicate 62 0

/-- 62 cumulative difficulties whose last two entries are equal while
entries 59 and 60 differ. -/
def lwma3LongCd : List Nat := List.range 61 ++ [60]

/-- 12 evenly spaced timestamps (solvetime 120). -/
def lwma3WitnessTs : List Nat := List.range' 0 12 120

/-- 12 cumulative difficulties growing by 100 per block. -/
def lwma3WitnessCd : List Nat := List.range' 0 12 100

/-- 720 identical timestamps for the classic-difficulty witness. -/
def classicWitnessTs : List Nat := List.replicate 720 100

/-- 720 strictly increasing cumulative difficulties for the
classic-difficulty witness. -/
def classicWitnessCd : List Nat := List.range 720

/-- A two-block chain of `(timestamp, acceptance time)` entries reachable
through the timestamp gate. -/
def smallChain : List (Nat × Nat) := [(5, 0), (3, 0)]

/-- A transaction whose input sum is `2^64 - 5` and output sum `2^64 - 1`,
so that `amount_in + MINIMUM_FEE` wraps in `uint64_t`. -/
def overflowFeeTx : Transaction :=
  ⟨0, [TransactionInput.keyIn 18446744073709551611],
   [⟨18446744073709551615, TxOutTarget.key 0⟩]⟩

/-- Inputs exceed outputs by 40. -/
def feeWitnessTx1 : Transaction :=
  ⟨0, [TransactionInput.keyIn 50], [⟨10, TxOutTarget.key 0⟩]⟩

/-- Outputs exceed inputs by 5 (at most `MINIMUM_FEE`). -/
def feeWitnessTx2 : Transaction :=
  ⟨0, [TransactionInput.keyIn 5], [⟨10, TxOutTarget.key 0⟩]⟩

/-!
## Theorems

One principal theorem per claim of the specification review, preceded by
helper lemmas where needed.
-/

/-- C2 counterexample: at the hard-coded foundation-trust height 56450 the
base reward is `FOUNDATION_TRUST1 = 8·10^14` regardless of the remaining
supply, so with `already_generated_coins = money_supply` it exceeds
`money_supply - already_generated_coins = 0`. -/
theorem baseReward_clamp_refuted_at_56450 :
    ¬ baseRewardFunction moneySupply 56450 ≤ moneySupply - moneySupply := by
  decide

/-- C2 (amended): for every `(already_generated_coins, height)` with
`height` outside the hard-coded exceptions (56450, 59215 and 1 ≤ h < 101),
`Currency::baseRewardFunction` returns at most
`money_supply - already_generated_coins` (`uint64_t` subtraction); the
exception heights return fixed amounts unclamped. -/
theorem baseReward_supply_clamp (alreadyGeneratedCoins height : Nat)
    (h1 : height ≠ 56450) (h2 : height ≠ 59215)
    (h3 : ¬ (1 ≤ height ∧ height < 101)) :
    baseRewardFunction alreadyGeneratedCoins height ≤
      sub64 moneySupply alreadyGeneratedCoins := by
  unfold baseRewardFunction
  rw [if_neg h1, if_neg h2, if_neg h3]
  exact min_le_right _ _

/-- C2 witness: the amended clamp at a concrete non-exceptional input. -/
theorem baseReward_supply_clamp_witness :
    (123 : Nat) ≠ 56450 ∧
    baseRewardFunction 123 200 ≤ sub64 moneySupply 123 :=
  ⟨by decide, baseReward_supply_clamp 123 200 (by decide) (by decide) (by decide)⟩

/-- C8 counterexample: with the recorded missing-interest block 0, spending
a deposit of term 1000 at height 1000 gives lock height
`1000 - 1000 = 0 = BLOCK_WITH_MISSING_INTEREST`, yet the spending height is
not the recorded block, and the interest actually computed (V1 path at
lock height 0, with the early multiplier ×100) differs from the value the
claim's lock-height keying predicts (lock collapsed to the current height
1000, no multiplier). -/
theorem interest_lock_keying_refuted :
    sub32 1000 1000 = blockWithMissingInterest ∧
    (1000 : Nat) ≠ blockWithMissingInterest ∧
    getInterestForInput (fun _ _ => 0) (fun _ _ => 0) ⟨26280000, 1, 0, 1000⟩ 1000 ≠
      calculateInterest (fun _ _ => 0) (fun _ _ => 0) 26280000 1000 1000 := by
  refine ⟨by decide, by decide, ?_⟩
  decide

/-- C8 (amended): `Currency::getInterestForInput` computes the interest
with effective lock height `h - t`, except when the current spending
height `h` itself equals the recorded missing-interest block, in which
case the effective lock height is collapsed to `h`; the exception is keyed
on the current height, not on the lock height. -/
theorem interest_effective_lock_height (v2 v3 : Nat → Nat → Nat)
    (input : MultisigInput) (height : Nat)
    (h1 : height < U32) (h2 : input.term ≤ height) :
    getInterestForInput v2 v3 input height =
      calculateInterest v2 v3 input.amount input.term
        (if height = blockWithMissingInterest then height
         else height - input.term) := by
  unfold getInterestForInput
  have hsub : sub32 height input.term = height - input.term := by
    simp only [sub32, U32] at *
    omega
  rw [hsub]

/-- C8 witness: the amended interest law at a concrete spend. -/
theorem interest_effective_lock_height_witness :
    (5000 : Nat) < U32 ∧ (1000 : Nat) ≤ 5000 ∧
    getInterestForInput (fun _ _ => 0) (fun _ _ => 0) ⟨26280000, 1, 0, 1000⟩ 5000 =
      calculateInterest (fun _ _ => 0) (fun _ _ => 0) 26280000 1000
        (if (5000 : Nat) = blockWithMissingInterest then 5000 else 5000 - 1000) :=
  ⟨by decide, by decide,
   interest_effective_lock_height (fun _ _ => 0) (fun _ _ => 0)
     ⟨26280000, 1, 0, 1000⟩ 5000 (by decide) (by decide)⟩

/-- C10 counterexample: when the `uint64_t` comparison
`amount_out > amount_in + MINIMUM_FEE` wraps (input sum `2^64 - 5`,
output sum `2^64 - 1`), a transaction in the claimed-failing band
`0 < O - I ≤ MINIMUM_FEE` actually succeeds with fee `MINIMUM_FEE`. -/
theorem transaction_fee_overflow_refuted :
    is_coinbase overflowFeeTx = false ∧
    txInputSum (fun _ _ => 0) (fun _ _ => 0) 1 overflowFeeTx <
      txOutputSum overflowFeeTx ∧
    txOutputSum overflowFeeTx ≤
      txInputSum (fun _ _ => 0) (fun _ _ => 0) 1 overflowFeeTx + MINIMUM_FEE ∧
    getTransactionFee (fun _ _ => 0) (fun _ _ => 0) overflowFeeTx 1 =
      some MINIMUM_FEE := by
  decide

/-- C10 (amended): the case analysis of `Currency::getTransactionFee` —
coinbase pays fee 0; `O ≤ I` succeeds with `I - O`; `O > I + MINIMUM_FEE`
with at least one input and one output succeeds with `MINIMUM_FEE`; and
`0 < O - I ≤ MINIMUM_FEE` fails (single-result overload then reports 0) —
provided `I + MINIMUM_FEE` does not wrap in `uint64_t`. -/
theorem transaction_fee_cases (v2 v3 : Nat → Nat → Nat) (tx : Transaction)
    (height : Nat) :
    (is_coinbase tx = true → getTransactionFee v2 v3 tx height = some 0) ∧
    (is_coinbase tx = false →
      txOutputSum tx ≤ txInputSum v2 v3 height tx →
      getTransactionFee v2 v3 tx height =
        some (txInputSum v2 v3 height tx - txOutputSum tx)) ∧
    (is_coinbase tx = false → tx.inputs ≠ [] → tx.outputs ≠ [] →
      txInputSum v2 v3 height tx + MINIMUM_FEE < U64 →
      txInputSum v2 v3 height tx + MINIMUM_FEE < txOutputSum tx →
      getTransactionFee v2 v3 tx height = some MINIMUM_FEE) ∧
    (is_coinbase tx = false →
      txInputSum v2 v3 height tx < txOutputSum tx →
      txOutputSum tx ≤ txInputSum v2 v3 height tx + MINIMUM_FEE →
      txInputSum v2 v3 height tx + MINIMUM_FEE < U64 →
      getTransactionFee v2 v3 tx height = none ∧
      getTransactionFeeSimple v2 v3 tx height = 0) := by
  refine ⟨?_, ?_, ?_, ?_⟩
  · intro h
    simp [getTransactionFee, h]
  · intro h hle
    simp only [getTransactionFee, h, Bool.false_eq_true, if_false]
    rw [if_neg (by omega)]
  · intro h hin hout hnow hgt
    simp only [getTransactionFee, h, Bool.false_eq_true, if_false]
    rw [if_pos (by simp only [MINIMUM_FEE] at *; omega)]
    rw [if_pos ⟨List.length_pos.mpr hin, by
      simpa [List.isEmpty_iff] using hout, by
        rw [Nat.mod_eq_of_lt hnow]; exact hgt⟩]
  · intro h hlt hle hnow
    constructor
    · simp only [getTransactionFee, h, Bool.false_eq_true, if_false]
      rw [if_pos (by omega)]
      rw [if_neg (by
        rintro ⟨-, -, hgt⟩
        rw [Nat.mod_eq_of_lt hnow] at hgt
        omega)]
    · simp only [getTransactionFeeSimple]
      rw [(by
        simp only [getTransactionFee, h, Bool.false_eq_true, if_false]
        rw [if_pos (by omega)]
        rw [if_neg (by
          rintro ⟨-, -, hgt⟩
          rw [Nat.mod_eq_of_lt hnow] at hgt
          omega)] : getTransactionFee v2 v3 tx height = none)]

/-- C10 witness: the `I - O` and failing branches at concrete
transactions. -/
theorem transaction_fee_cases_witness :
    getTransactionFee (fun _ _ => 0) (fun _ _ => 0) feeWitnessTx1 1 =
      some (txInputSum (fun _ _ => 0) (fun _ _ => 0) 1 feeWitnessTx1 -
        txOutputSum feeWitnessTx1) ∧
    getTransactionFee (fun _ _ => 0) (fun _ _ => 0) feeWitnessTx2 1 = none ∧
    getTransactionFeeSimple (fun _ _ => 0) (fun _ _ => 0) feeWitnessTx2 1 = 0 :=
  ⟨(transaction_fee_cases _ _ feeWitnessTx1 1).2.1 (by decide) (by decide),
   ((transaction_fee_cases _ _ feeWitnessTx2 1).2.2.2 (by decide) (by decide)
     (by decide) (by decide)).1,
   ((transaction_fee_cases _ _ feeWitnessTx2 1).2.2.2 (by decide) (by decide)
     (by decide) (by decide)).2⟩

/-- C3: `Blockchain::validate_miner_transaction` accepts a coinbase if and
only if its output sum `m` satisfies `reward ≤ m ≤ reward + 10`, where
`reward` is the value `Currency::getBlockReward` computes from the median
of the last `REWARD_BLOCKS_WINDOW` block sizes, the cumulative block size,
the already-generated coins and the fees. -/
theorem validate_miner_transaction_iff (outputAmounts blockSizes : List Nat)
    (height cumulativeBlockSize alreadyGeneratedCoins fee reward : Nat)
    (emission : Int)
    (h : getBlockReward (median64 (lastN blockSizes rewardBlocksWindow))
      cumulativeBlockSize alreadyGeneratedCoins fee height =
        some (reward, emission)) :
    validate_miner_transaction outputAmounts blockSizes height
      cumulativeBlockSize alreadyGeneratedCoins fee = true ↔
    (reward ≤ coinbaseOutputSum outputAmounts ∧
     coinbaseOutputSum outputAmounts ≤ reward + 10) := by
  simp only [validate_miner_transaction]
  rw [h]
  dsimp only
  split_ifs with h1 h2 <;> simp <;> omega

/-- C3 witness: a coinbase paying exactly the height-1 reward is
accepted. -/
theorem validate_miner_transaction_iff_witness :
    validate_miner_transaction [1000000000000] [] 1 100 0 0 = true :=
  (validate_miner_transaction_iff [1000000000000] [] 1 100 0 0
    1000000000000 1000000000000 (by decide)).mpr (by decide)

/-- Comparing two naturals is the same as comparing their
(high word, low word) decompositions lexicographically. -/
theorem u64_lex_of_lt {p q : Nat} (h : p < q) :
    p / U64 < q / U64 ∨ (p / U64 = q / U64 ∧ p % U64 < q % U64) := by
  rcases Nat.lt_or_ge (p / U64) (q / U64) with hlt | hge
  · exact Or.inl hlt
  · have hle : p / U64 ≤ q / U64 := Nat.div_le_div_right (Nat.le_of_lt h)
    have heq : p / U64 = q / U64 := Nat.le_antisymm hle hge
    refine Or.inr ⟨heq, ?_⟩
    have hp := Nat.div_add_mod p U64
    have hq := Nat.div_add_mod q U64
    simp only [U64] at hp hq heq ⊢
    omega

/-- C6: the pool priority comparator orders `a` strictly before `b`
whenever `a.fee · b.blobSize > b.fee · a.blobSize` (exact 128-bit
cross-multiplication); ties on the cross product are broken by smaller
`blobSize`, then by earlier `receiveTime`. -/
theorem txPriority_cross_mul_order (a b : TransactionDetails)
    (_haf : a.fee < U64) (_hbf : b.fee < U64)
    (_has : a.blobSize < U64) (_hbs : b.blobSize < U64) :
    (b.fee * a.blobSize < a.fee * b.blobSize →
      txPriorityBefore a b = true ∧ txPriorityBefore b a = false) ∧
    (a.fee * b.blobSize = b.fee * a.blobSize → a.blobSize < b.blobSize →
      txPriorityBefore a b = true) ∧
    (a.fee * b.blobSize = b.fee * a.blobSize → a.blobSize = b.blobSize →
      a.receiveTime < b.receiveTime → txPriorityBefore a b = true) := by
  refine ⟨?_, ?_, ?_⟩
  · intro h
    have hlex := u64_lex_of_lt h
    constructor
    · simp only [txPriorityBefore, Bool.or_eq_true, decide_eq_true_eq,
        Bool.and_eq_true, beq_iff_eq]
      rcases hlex with h1 | ⟨h1, h2⟩
      · exact Or.inl (Or.inl (Or.inl h1))
      · exact Or.inl (Or.inl (Or.inr ⟨h1.symm, h2⟩))
    · rw [Bool.eq_false_iff]
      intro hc
      simp only [txPriorityBefore, Bool.or_eq_true, decide_eq_true_eq,
        Bool.and_eq_true, beq_iff_eq] at hc
      rcases hlex with h1 | ⟨h1, h2⟩ <;>
        rcases hc with ((hc | ⟨hc1, hc2⟩) | ⟨⟨hc1, hc2⟩, hc3⟩) |
          ⟨⟨⟨hc1, hc2⟩, hc3⟩, hc4⟩ <;>
        omega
  · intro hEq hsize
    simp only [txPriorityBefore, Bool.or_eq_true, decide_eq_true_eq,
      Bool.and_eq_true, beq_iff_eq]
    exact Or.inl (Or.inr ⟨⟨by rw [hEq], by rw [hEq]⟩, hsize⟩)
  · intro hEq hsize htime
    simp only [txPriorityBefore, Bool.or_eq_true, decide_eq_true_eq,
      Bool.and_eq_true, beq_iff_eq]
    exact Or.inr ⟨⟨⟨by rw [hEq], by rw [hEq]⟩, hsize⟩, htime⟩

/-- C6 witness: the strict ordering at a concrete fee/size pair. -/
theorem txPriority_cross_mul_order_witness :
    txPriorityBefore ⟨2, 1, 0⟩ ⟨1, 1, 1⟩ = true ∧
    txPriorityBefore ⟨1, 1, 1⟩ ⟨2, 1, 0⟩ = false :=
  (txPriority_cross_mul_order ⟨2, 1, 0⟩ ⟨1, 1, 1⟩ (by decide) (by decide)
    (by decide) (by decide)).1 (by decide)

/-- C1 counterexample: a state in which the referenced deposit output
exists, is unused and carries the required signatures, the input's term
equals the output's term, and `creating_height + term ≤ h` — yet
`validateInput` rejects the spend, because the deposit-creating
transaction's `unlockTime` (400000000, read as a block index) is still
locked. -/
theorem validateInput_locked_refutes :
    lockedDepositState.msigOutputs depositSpendInput.amount =
      some [⟨⟨0, 0⟩, 0, false⟩] ∧
    depositSpendInput.signatureCount = 1 ∧
    msigScan (fun _ _ => true) [5] [7] depositSpendInput.signatureCount = true ∧
    depositSpendInput.term = 1 ∧
    0 + 1 ≤ lockedDepositState.blocks.length ∧
    validateInput lockedDepositState (fun _ _ => true) depositSpendInput [7] =
      false := by
  refine ⟨rfl, rfl, by decide, rfl, by decide, by decide⟩

/-- C1 (amended): under the preconditions that the referenced
multisignature output exists, is not already marked used, carries the
required signatures (matching count and a successful signature scan), and
that the deposit-creating transaction is spend-time unlocked,
`Blockchain::validateInput` accepts a deposit spend (`term > 0`) if and
only if the input's term equals the output's term and
`creating_height + term ≤ current blockchain height`. -/
theorem validateInput_deposit_iff (st : BlockchainState)
    (check : Nat → Nat → Bool) (input : MultisigInput) (sigs : List Nat)
    (outs : List MultisignatureOutputUsage)
    (usage : MultisignatureOutputUsage) (tx : Transaction)
    (output : MultisigOutput)
    (h1 : st.msigOutputs input.amount = some outs)
    (h2 : input.outputIndex < outs.length)
    (h3 : outs.getD input.outputIndex ⟨⟨0, 0⟩, 0, true⟩ = usage)
    (h4 : usage.isUsed = false)
    (h5 : (st.blocks.getD usage.transactionIndex.block []).getD
        usage.transactionIndex.transaction defaultTransaction = tx)
    (h6 : is_tx_spendtime_unlocked st tx.unlockTime = true)
    (h7 : (tx.outputs.getD usage.outputIndex defaultOutput).target =
        TxOutTarget.multisig output)
    (h8 : 0 < output.term)
    (h9 : input.signatureCount = output.requiredSignatureCount)
    (h10 : msigScan check output.keys sigs input.signatureCount = true)
    (h11 : usage.transactionIndex.block + output.term < U32)
    (h12 : st.blocks.length < U32) :
    validateInput st check input sigs = true ↔
      (input.term = output.term ∧
       usage.transactionIndex.block + output.term ≤ st.blocks.length) := by
  simp only [validateInput, h1]
  rw [if_neg (by omega)]
  rw [h3, h5, h7, h4, h6]
  simp only [Bool.false_eq_true, if_false, not_true, not_false_iff, if_true]
  rw [if_neg (fun hne => hne h9)]
  have hmod1 : (usage.transactionIndex.block + output.term) % U32 =
      usage.transactionIndex.block + output.term := Nat.mod_eq_of_lt h11
  have hmod2 : getCurrentBlockchainHeight st = st.blocks.length := by
    simp only [getCurrentBlockchainHeight]
    exact Nat.mod_eq_of_lt h12
  rw [hmod1, hmod2]
  constructor
  · intro hv
    by_cases ht : input.term = output.term
    · rw [if_neg (fun hne => hne ht)] at hv
      by_cases hl : output.term ≠ 0 ∧
        usage.transactionIndex.block + output.term > st.blocks.length
      · rw [if_pos hl] at hv
        exact absurd hv (by simp)
      · have hnot : ¬ usage.transactionIndex.block + output.term >
            st.blocks.length := fun hgt => hl ⟨by omega, hgt⟩
        exact ⟨ht, by omega⟩
    · rw [if_pos ht] at hv
      exact absurd hv (by simp)
  · rintro ⟨hteq, hle⟩
    rw [if_neg (fun hne => hne hteq)]
    rw [if_neg (fun hc => absurd hc.2 (by omega))]
    exact h10

/-- C1 witness: the same deposit spend is accepted once the creating
transaction is unlocked. -/
theorem validateInput_deposit_iff_witness :
    validateInput unlockedDepositState (fun _ _ => true) depositSpendInput [7] =
      true :=
  (validateInput_deposit_iff unlockedDepositState (fun _ _ => true)
      depositSpendInput [7] [⟨⟨0, 0⟩, 0, false⟩] ⟨⟨0, 0⟩, 0, false⟩
      unlockedDepositTx ⟨[5], 1, 1⟩ rfl (by decide) rfl rfl rfl (by decide)
      rfl (by decide) rfl (by decide) (by decide) (by decide)).mpr
    ⟨rfl, by decide⟩

set_option maxRecDepth 100000 in
/-- C5 counterexample: with 62 timestamps the loop index `N` stays at 60,
so the clamp is computed from `cd[60] - cd[59]`, not from the difference
of the last two cumulative difficulties; here that last-two difference is
0, yet the returned difficulty is not bounded by `0 · 150 / 100`. -/
theorem lwma3_prevd_last_two_refuted :
    10 < lwma3LongTs.length ∧
    lwma3LongTs.length = lwma3LongCd.length ∧
    (1000 : Nat) ≠ 56630 ∧ (1000 : Nat) < 59212 ∧
    sub64 (lwma3LongCd.getD (lwma3LongCd.length - 1) 0)
      (lwma3LongCd.getD (lwma3LongCd.length - 2) 0) = 0 ∧
    ¬ nextDifficultyLWMA3 lwma3LongTs lwma3LongCd 1000 ≤
        sub64 (lwma3LongCd.getD (lwma3LongCd.length - 1) 0)
          (lwma3LongCd.getD (lwma3LongCd.length - 2) 0) * 150 / 100 := by
  decide

/-- C5 (amended): `Currency::nextDifficultyLWMA3` returns the fixed
difficulty 100 at height 56630 and 1000 at heights ≥ 59212; otherwise,
with more than 10 timestamps, the result lies in
`[prev_D·67/100, prev_D·150/100]` and is raised to at least
`prev_D·108/100` when the last three clamped solvetimes sum to less than
`0.8·T`, where `prev_D = cd[N] - cd[N-1]` (`uint64_t`) with
`N = min(60, #timestamps - 1)` — not necessarily the last two entries —
and provided `prev_D · 150` does not overflow `uint64_t`. -/
theorem lwma3_clamp_spec (timestamps cumulative_difficulties : List Nat)
    (height : Nat) :
    (height = 56630 →
      nextDifficultyLWMA3 timestamps cumulative_difficulties height = 100) ∧
    (59212 ≤ height →
      nextDifficultyLWMA3 timestamps cumulative_difficulties height = 1000) ∧
    (height ≠ 56630 → height < 59212 → 10 < timestamps.length →
      ∀ N prev_D,
        N = (if timestamps.length < 60 + 1 then timestamps.length - 1 else 60) →
        prev_D = sub64 (cumulative_difficulties.getD N 0)
          (cumulative_difficulties.getD (N - 1) 0) →
        prev_D * 150 < U64 →
        prev_D * 67 / 100 ≤
            nextDifficultyLWMA3 timestamps cumulative_difficulties height ∧
        nextDifficultyLWMA3 timestamps cumulative_difficulties height ≤
            prev_D * 150 / 100 ∧
        ((lwma3Acc timestamps N).2.2 < 8 * 120 / 10 →
          prev_D * 108 / 100 ≤
            nextDifficultyLWMA3 timestamps cumulative_difficulties height)) := by
  refine ⟨?_, ?_, ?_⟩
  · intro h
    simp [nextDifficultyLWMA3, h]
  · intro hge
    unfold nextDifficultyLWMA3
    rw [if_neg (by omega), if_pos hge]
  · intro h1 h2 h3 N prev_D hN hprev hov
    have h67le : prev_D * 67 ≤ prev_D * 150 :=
      Nat.mul_le_mul_left _ (by norm_num)
    have h108le : prev_D * 108 ≤ prev_D * 150 :=
      Nat.mul_le_mul_left _ (by norm_num)
    have e150 : (prev_D * 150) % U64 = prev_D * 150 := Nat.mod_eq_of_lt hov
    have e67 : (prev_D * 67) % U64 = prev_D * 67 :=
      Nat.mod_eq_of_lt (lt_of_le_of_lt h67le hov)
    have e108 : (prev_D * 108) % U64 = prev_D * 108 :=
      Nat.mod_eq_of_lt (lt_of_le_of_lt h108le hov)
    have hab : prev_D * 67 / 100 ≤ prev_D * 150 / 100 :=
      Nat.div_le_div_right h67le
    have hcb : prev_D * 108 / 100 ≤ prev_D * 150 / 100 :=
      Nat.div_le_div_right h108le
    refine ⟨?_, ?_, ?_⟩
    · simp only [nextDifficultyLWMA3]
      rw [if_neg h1, if_neg (by omega), if_neg (by omega), ← hN, ← hprev,
        e67, e150, e108]
      split_ifs with hc
      · exact le_trans (le_max_left _ _) (le_max_left _ _)
      · exact le_max_left _ _
    · simp only [nextDifficultyLWMA3]
      rw [if_neg h1, if_neg (by omega), if_neg (by omega), ← hN, ← hprev,
        e67, e150, e108]
      split_ifs with hc
      · exact max_le (max_le hab (min_le_right _ _)) hcb
      · exact max_le hab (min_le_right _ _)
    · intro hsum
      simp only [nextDifficultyLWMA3]
      rw [if_neg h1, if_neg (by omega), if_neg (by omega), ← hN, ← hprev,
        e67, e150, e108]
      rw [if_pos hsum]
      exact le_max_right _ _

/-- C5 witness: the clamp at 12 evenly spaced timestamps with
`prev_D = 100`. -/
theorem lwma3_clamp_spec_witness :
    100 * 67 / 100 ≤ nextDifficultyLWMA3 lwma3WitnessTs lwma3WitnessCd 1000 ∧
    nextDifficultyLWMA3 lwma3WitnessTs lwma3WitnessCd 1000 ≤ 100 * 150 / 100 :=
  have h := (lwma3_clamp_spec lwma3WitnessTs lwma3WitnessCd 1000).2.2
    (by decide) (by decide) (by decide) 11 100 (by decide) (by decide)
    (by decide)
  ⟨h.1, h.2.1⟩

/-- Appending an element does not change a window that lies entirely
inside the original list. -/
theorem window_append_stable {α : Type} (l : List α) (x : α) (k m : Nat)
    (h : k + m ≤ l.length) :
    ((l ++ [x]).drop k).take m = (l.drop k).take m := by
  rw [List.drop_append_of_le_length (by omega)]
  rw [List.take_append_of_le_length (by rw [List.length_drop]; omega)]

/-- C7: in every chain reachable through the `pushBlock` timestamp gate,
each block above the genesis has a timestamp at most the local time at its
acceptance plus `FUTURE_TIME_LIMIT`, and (once a full window of
predecessors exists) at least the median of the timestamps of the
preceding `TIMESTAMP_CHECK_WINDOW` blocks. -/
theorem reachable_timestamp_invariant (s : List (Nat × Nat))
    (hre : ReachableChain s) :
    ∀ h, 0 < h → h < s.length →
      (s.getD h (0, 0)).1 ≤ (s.getD h (0, 0)).2 + blockFutureTimeLimit ∧
      (timestampCheckWindow ≤ h →
        median64 (((s.map Prod.fst).drop (h - timestampCheckWindow)).take
          timestampCheckWindow) ≤ (s.getD h (0, 0)).1) := by
  induction hre with
  | genesis g =>
    intro h h0 hlen
    simp only [List.length_singleton] at hlen
    omega
  | push s ts now hre hcheck ih =>
    intro h h0 hlen
    rw [List.length_append, List.length_singleton] at hlen
    by_cases hcase : h < s.length
    · rw [List.getD_append _ _ _ _ hcase]
      refine ⟨(ih h h0 hcase).1, ?_⟩
      intro hwin
      have hmap : (s ++ [(ts, now)]).map Prod.fst = s.map Prod.fst ++ [ts] := by
        simp
      rw [hmap, window_append_stable _ _ _ _ (by rw [List.length_map]; omega)]
      exact (ih h h0 hcase).2 hwin
    · have heq : h = s.length := by omega
      subst heq
      rw [List.getD_append_right _ _ _ _ (le_refl _), Nat.sub_self]
      simp only [List.getD_cons_zero]
      unfold check_block_timestamp_main at hcheck
      by_cases hfut : ts > now + blockFutureTimeLimit
      · rw [if_pos hfut] at hcheck
        exact absurd hcheck (by simp)
      · rw [if_neg hfut] at hcheck
        refine ⟨by omega, ?_⟩
        intro hwin
        unfold check_block_timestamp at hcheck
        have hofs : (if (s.map Prod.fst).length ≤ timestampCheckWindow then 0
            else (s.map Prod.fst).length - timestampCheckWindow) =
            s.length - timestampCheckWindow := by
          rw [List.length_map]
          split_ifs <;> omega
        rw [hofs] at hcheck
        have hlen30 : ((s.map Prod.fst).drop
            (s.length - timestampCheckWindow)).length = timestampCheckWindow := by
          rw [List.length_drop, List.length_map]
          omega
        rw [if_neg (by rw [hlen30]; omega)] at hcheck
        have hmed : ¬ ts < median64 ((s.map Prod.fst).drop
            (s.length - timestampCheckWindow)) := by simpa using hcheck
        have hmap : (s ++ [(ts, now)]).map Prod.fst = s.map Prod.fst ++ [ts] := by
          simp
        rw [hmap, List.drop_append_of_le_length (by rw [List.length_map]; omega),
          List.take_append_of_le_length (by rw [hlen30]),
          List.take_of_length_le (by rw [hlen30])]
        omega

/-- C7 witness: the invariant at height 1 of a concrete reachable
two-block chain. -/
theorem reachable_timestamp_invariant_witness :
    (smallChain.getD 1 (0, 0)).1 ≤
      (smallChain.getD 1 (0, 0)).2 + blockFutureTimeLimit :=
  (reachable_timestamp_invariant smallChain
    (ReachableChain.push [(5, 0)] 3 0 (ReachableChain.genesis (5, 0))
      (by decide))
    1 (by decide) (by decide)).1

/-- `uint64_t` subtraction agrees with `Nat` subtraction below the
modulus. -/
theorem sub64_eq_sub {a b : Nat} (hba : b ≤ a) (ha : a < U64) :
    sub64 a b = a - b := by
  unfold sub64
  rw [show a + U64 - b = a - b + U64 by omega, Nat.add_mod_right]
  exact Nat.mod_eq_of_lt (by omega)

/-- `getD` inside the taken prefix reads the original list. -/
theorem getD_take_of_lt (l : List Nat) (n i d : Nat) (h : i < n) :
    (l.take n).getD i d = l.getD i d := by
  rw [List.getD_eq_getD_get?, List.getD_eq_getD_get?, List.get?_eq_getElem?,
    List.get?_eq_getElem?, List.getElem?_take, if_pos h]

/-- In-range `getD` values are members of the list. -/
theorem getD_mem_of_lt (l : List Nat) (i d : Nat) (h : i < l.length) :
    l.getD i d ∈ l := by
  rw [List.getD_eq_getElem _ _ h]
  exact List.getElem_mem h

/-- Monotonicity of `getD` on a `≤`-sorted list. -/
theorem sorted_getD_le (l : List Nat) (hs : List.Sorted (· ≤ ·) l)
    (i j d : Nat) (hij : i ≤ j) (hj : j < l.length) :
    l.getD i d ≤ l.getD j d := by
  rcases Nat.eq_or_lt_of_le hij with rfl | hlt
  · exact le_refl _
  · rw [List.getD_eq_getElem _ _ (by omega), List.getD_eq_getElem _ _ hj]
    have := List.Sorted.rel_get_of_lt hs (a := ⟨i, by omega⟩) (b := ⟨j, hj⟩)
      (Fin.mk_lt_mk.mpr hlt)
    simpa [List.get_eq_getElem] using this

/-- C4 counterexample: at block major version 2 (mainnet has the Zawy
difficulty fix enabled) the classic algorithm floor-divides: with
timestamps `[0, 7]` and cumulative difficulties `[0, 1]` the result is
`120 / 7 = 17`, not the claimed rounded-up `(1·120 + 7 − 1) / 7 = 18`. -/
theorem nextDifficulty_roundup_refuted :
    nextDifficultyMain 2 0 [0, 7] [0, 1] = 1 * difficultyTarget / 7 ∧
    nextDifficultyMain 2 0 [0, 7] [0, 1] ≠
      (1 * difficultyTarget + 7 - 1) / 7 := by
  decide

/-- C4 (amended): for a full window (at least `DIFFICULTY_WINDOW = 720`
pairs, the first 720 of which are kept by the resize), versions 1–3 sort
the timestamps and cut `DIFFICULTY_CUT = 60` from each end; version 1
returns the rounded-up quotient `(total_work·target + span − 1) / span`,
while versions 2–3 (Zawy fix) return the floor quotient
`total_work·target / span`, where `span` is the cut timestamp range
(minimum 1) and `total_work` the cut cumulative-difficulty range. -/
theorem nextDifficulty_classic_formula (version blockIndex : Nat)
    (timestamps cumulativeDifficulties : List Nat)
    (hv : version = 1 ∨ version = 2 ∨ version = 3)
    (hlen : timestamps.length = cumulativeDifficulties.length)
    (hfull : 720 ≤ timestamps.length)
    (hts : ∀ x ∈ timestamps, x ≤ U32)
    (hcd : ∀ x ∈ cumulativeDifficulties, x ≤ U32)
    (hmono : cumulativeDifficulties.getD 60 0 ≤
      cumulativeDifficulties.getD 659 0) :
    nextDifficultyMain version blockIndex timestamps cumulativeDifficulties =
      (let sorted := List.insertionSort (· ≤ ·) (timestamps.take 720)
       let timeSpan0 := sorted.getD 659 0 - sorted.getD 60 0
       let timeSpan := if timeSpan0 = 0 then 1 else timeSpan0
       let totalWork := cumulativeDifficulties.getD 659 0 -
         cumulativeDifficulties.getD 60 0
       if version = 1 then
         (totalWork * difficultyTarget + timeSpan - 1) / timeSpan
       else totalWork * difficultyTarget / timeSpan) := by
  have hw : difficultyWindowByBlockVersion version = 720 := by
    rcases hv with rfl | rfl | rfl <;> rfl
  have hc : difficultyCutByBlockVersion version = 60 := by
    rcases hv with rfl | rfl | rfl <;> rfl
  have hts720 : (if timestamps.length > 720 then timestamps.take 720
      else timestamps) = timestamps.take 720 := by
    split_ifs with hgt
    · rfl
    · rw [List.take_of_length_le (by omega)]
  have hcd720 : (if timestamps.length > 720 then
      cumulativeDifficulties.take 720 else cumulativeDifficulties) =
      cumulativeDifficulties.take 720 := by
    split_ifs with hgt
    · rfl
    · rw [List.take_of_length_le (by omega)]
  have hlen' : (timestamps.take 720).length = 720 := by
    rw [List.length_take]
    omega
  simp only [nextDifficultyMain]
  rw [hw, hc, hts720, hcd720, hlen']
  norm_num
  simp only [← List.getD_eq_getElem?_getD]
  set sorted := List.insertionSort (· ≤ ·) (timestamps.take 720) with hsorted
  have hsortedlen : sorted.length = 720 := by
    rw [hsorted, List.length_insertionSort, hlen']
  have hsortedsort : List.Sorted (· ≤ ·) sorted :=
    List.sorted_insertionSort _ _
  have hs_le : sorted.getD 60 0 ≤ sorted.getD 659 0 :=
    sorted_getD_le sorted hsortedsort 60 659 0 (by omega) (by omega)
  have hmem659 : sorted.getD 659 0 ∈ timestamps := by
    have := getD_mem_of_lt sorted 659 0 (by omega)
    rw [hsorted, List.mem_insertionSort] at this
    exact List.take_subset _ _ this
  have hb659 : sorted.getD 659 0 ≤ U32 := hts _ hmem659
  have hsub_ts : sub64 (sorted.getD 659 0) (sorted.getD 60 0) =
      sorted.getD 659 0 - sorted.getD 60 0 :=
    sub64_eq_sub hs_le (lt_of_le_of_lt hb659 (by norm_num [U32, U64]))
  have hcdlen : 720 ≤ cumulativeDifficulties.length := by omega
  have hget659 : (cumulativeDifficulties.take 720).getD 659 0 =
      cumulativeDifficulties.getD 659 0 := getD_take_of_lt _ _ _ _ (by omega)
  have hget60 : (cumulativeDifficulties.take 720).getD 60 0 =
      cumulativeDifficulties.getD 60 0 := getD_take_of_lt _ _ _ _ (by omega)
  have hb_cd : cumulativeDifficulties.getD 659 0 ≤ U32 :=
    hcd _ (getD_mem_of_lt _ _ _ (by omega))
  have hsub_cd : sub64 (cumulativeDifficulties.getD 659 0)
      (cumulativeDifficulties.getD 60 0) =
      cumulativeDifficulties.getD 659 0 - cumulativeDifficulties.getD 60 0 :=
    sub64_eq_sub hmono (lt_of_le_of_lt hb_cd (by norm_num [U32, U64]))
  rw [hsub_ts, hsub_cd]
  set tw := cumulativeDifficulties.getD 659 0 -
    cumulativeDifficulties.getD 60 0 with htw
  set sp0 := sorted.getD 659 0 - sorted.getD 60 0 with hsp0
  have htw_le : tw ≤ U32 := by omega
  have hsp_le : (if sp0 = 0 then 1 else sp0) ≤ U32 := by
    split_ifs with h0
    · simp only [U32]
      omega
    · omega
  have hU32dT : U32 * difficultyTarget = 515396075520 := by
    norm_num [U32, difficultyTarget]
  have hX : tw * difficultyTarget ≤ 515396075520 :=
    hU32dT ▸ Nat.mul_le_mul_right difficultyTarget htw_le
  have hprod_lt : tw * difficultyTarget < U64 := by
    simp only [U64]
    omega
  have hhigh : tw * difficultyTarget / U64 = 0 := Nat.div_eq_of_lt hprod_lt
  have hlow : tw * difficultyTarget % U64 = tw * difficultyTarget :=
    Nat.mod_eq_of_lt hprod_lt
  rw [hhigh, hlow]
  rw [if_neg (by
    rintro (hne | hov)
    · exact hne rfl
    · simp only [U64] at hov
      simp only [U32] at hsp_le
      omega)]
  rcases hv with rfl | rfl | rfl
  · rw [if_neg (by norm_num : ¬ (2 : Nat) ≤ 1),
      if_neg (by simp [zawyDifficultyBlockIndex]), if_pos rfl]
  · rw [if_pos (by norm_num : (2 : Nat) ≤ 2), if_pos rfl,
      if_neg (by norm_num : ¬ (2 : Nat) = 1)]
  · rw [if_pos (by norm_num : (2 : Nat) ≤ 3), if_pos rfl,
      if_neg (by norm_num : ¬ (3 : Nat) = 1)]

set_option maxRecDepth 100000 in
/-- C4 witness: the amended formula at a concrete full window (version 1,
720 pairs). -/
theorem nextDifficulty_classic_formula_witness :
    nextDifficultyMain 1 0 classicWitnessTs classicWitnessCd =
      (let sorted := List.insertionSort (· ≤ ·) (classicWitnessTs.take 720)
       let timeSpan0 := sorted.getD 659 0 - sorted.getD 60 0
       let timeSpan := if timeSpan0 = 0 then 1 else timeSpan0
       let totalWork := classicWitnessCd.getD 659 0 -
         classicWitnessCd.getD 60 0
       if (1 : Nat) = 1 then
         (totalWork * difficultyTarget + timeSpan - 1) / timeSpan
       else totalWork * difficultyTarget / timeSpan) :=
  nextDifficulty_classic_formula 1 0 classicWitnessTs classicWitnessCd
    (Or.inl rfl) (by decide) (by decide) (by decide) (by decide) (by decide)

/-- Appending one character multiplies the accumulated value by 10. -/
theorem digitsVal_append_singleton (s : List Nat) (c : Nat) :
    digitsVal (s ++ [c]) = digitsVal s * 10 + (c - 48) := by
  unfold digitsVal
  rw [List.foldl_append]
  rfl

/-- `decimalDigits` below 10. -/
theorem decimalDigits_small {n : Nat} (h : n < 10) : decimalDigits n = [n] := by
  unfold decimalDigits
  rw [if_pos h]

/-- `decimalDigits` unfolding above 9. -/
theorem decimalDigits_large {n : Nat} (h : ¬ n < 10) :
    decimalDigits n = decimalDigits (n / 10) ++ [n % 10] := by
  conv_lhs => rw [decimalDigits]
  rw [if_neg h]

/-- Every produced digit is below 10. -/
theorem decimalDigits_lt (n : Nat) : ∀ d ∈ decimalDigits n, d < 10 := by
  induction n using Nat.strong_induction_on with
  | _ n ih =>
    by_cases h : n < 10
    · rw [decimalDigits_small h]
      intro d hd
      simp only [List.mem_singleton] at hd
      omega
    · rw [decimalDigits_large h]
      intro d hd
      rcases List.mem_append.mp hd with hd | hd
      · exact ih (n / 10) (Nat.div_lt_self (by omega) (by omega)) d hd
      · simp only [List.mem_singleton] at hd
        omega

/-- `decimalDigits` is never empty. -/
theorem decimalDigits_ne_nil (n : Nat) : decimalDigits n ≠ [] := by
  by_cases h : n < 10
  · rw [decimalDigits_small h]
    simp
  · rw [decimalDigits_large h]
    simp

/-- Reading back the decimal representation gives the value. -/
theorem digitsVal_toDecimalCodes (n : Nat) :
    digitsVal (toDecimalCodes n) = n := by
  induction n using Nat.strong_induction_on with
  | _ n ih =>
    by_cases h : n < 10
    · rw [toDecimalCodes, decimalDigits_small h]
      simp only [List.map_cons, List.map_nil, digitsVal, List.foldl_cons,
        List.foldl_nil]
      omega
    · rw [toDecimalCodes, decimalDigits_large h, List.map_append,
        List.map_singleton, ← toDecimalCodes, digitsVal_append_singleton,
        ih (n / 10) (Nat.div_lt_self (by omega) (by omega))]
      omega

/-- All characters of the decimal representation are digit characters. -/
theorem toDecimalCodes_digits (n : Nat) :
    ∀ c ∈ toDecimalCodes n, isDigitCode c = true := by
  intro c hc
  rw [toDecimalCodes, List.mem_map] at hc
  obtain ⟨d, hd, rfl⟩ := hc
  have := decimalDigits_lt n d hd
  simp only [isDigitCode, Bool.and_eq_true, decide_eq_true_eq]
  omega

/-- The decimal representation is non-empty. -/
theorem toDecimalCodes_ne_nil (n : Nat) : toDecimalCodes n ≠ [] := by
  rw [toDecimalCodes]
  simpa using decimalDigits_ne_nil n

/-- Leading zero characters do not change the numeric value. -/
theorem digitsVal_replicate_48 (k : Nat) (s : List Nat) :
    digitsVal (List.replicate k 48 ++ s) = digitsVal s := by
  induction k with
  | zero => rfl
  | succ k ih =>
    rw [List.replicate_succ, List.cons_append]
    simpa [digitsVal] using ih

/-- `dropWhile` is the identity when no element satisfies the predicate. -/
theorem dropWhile_of_forall_false {p : Nat → Bool} {s : List Nat}
    (h : ∀ c ∈ s, p c = false) : s.dropWhile p = s := by
  cases s with
  | nil => rfl
  | cons a t =>
    rw [List.dropWhile_cons, if_neg (by simp [h a (List.mem_cons_self a t)])]

/-- `boost::trim` is the identity on strings without whitespace. -/
theorem trimCodes_of_no_space {s : List Nat}
    (h : ∀ c ∈ s, isSpaceCode c = false) : trimCodes s = s := by
  unfold trimCodes
  rw [dropWhile_of_forall_false h,
    dropWhile_of_forall_false (fun c hc => h c (List.mem_reverse.mp hc)),
    List.reverse_reverse]

/-- The first point of `A ++ '.' :: B` is at index `A.length` when `A` is
point-free. -/
theorem findPointIndex_append_cons (A B : List Nat)
    (hA : ∀ x ∈ A, x ≠ 46) :
    findPointIndex (A ++ 46 :: B) = some A.length := by
  induction A with
  | nil => simp [findPointIndex]
  | cons a t ih =>
    rw [List.cons_append]
    unfold findPointIndex
    rw [if_neg (hA a (List.mem_cons_self a t)),
      ih (fun x hx => hA x (List.mem_cons_of_mem a hx))]
    simp

/-- Erasing the element at the junction index removes it. -/
theorem eraseIdx_append_cons (A B : List Nat) (c : Nat) :
    (A ++ c :: B).eraseIdx A.length = A ++ B := by
  induction A with
  | nil => rfl
  | cons a t ih =>
    simp only [List.cons_append, List.length_cons, List.eraseIdx_cons_succ, ih]

/-- The stripping loop does nothing at exactly `numberOfDecimalPlaces`
fractional characters. -/
theorem stripTrailingZeros_at_limit (s : List Nat) :
    stripTrailingZeros s numberOfDecimalPlaces = (s, numberOfDecimalPlaces) := by
  unfold stripTrailingZeros
  rw [dif_neg (by simp)]

/-- Digit characters are not whitespace. -/
theorem isSpaceCode_of_digit {c : Nat} (h : isDigitCode c = true) :
    isSpaceCode c = false := by
  simp only [isDigitCode, Bool.and_eq_true, decide_eq_true_eq] at h
  rw [Bool.eq_false_iff]
  intro hsp
  simp only [isSpaceCode, Bool.or_eq_true, Bool.and_eq_true,
    decide_eq_true_eq] at hsp
  omega

/-- Parsing a formatted digit string: inserting the point before the last
`numberOfDecimalPlaces` characters of an all-digit string of length at
least `numberOfDecimalPlaces + 1` parses back to its value. -/
theorem parseAmount_format_shape (P : List Nat)
    (hdig : ∀ c ∈ P, isDigitCode c = true)
    (hlen : numberOfDecimalPlaces + 1 ≤ P.length)
    (hval : digitsVal P < U64) :
    parseAmount (P.take (P.length - numberOfDecimalPlaces) ++
      46 :: P.drop (P.length - numberOfDecimalPlaces)) = some (digitsVal P) := by
  set A := P.take (P.length - numberOfDecimalPlaces) with hA
  set B := P.drop (P.length - numberOfDecimalPlaces) with hB
  have hBlen : B.length = numberOfDecimalPlaces := by
    rw [hB, List.length_drop]
    simp only [numberOfDecimalPlaces] at *
    omega
  have hAdig : ∀ c ∈ A, isDigitCode c = true := by
    intro c hc
    rw [hA] at hc
    exact hdig c (List.take_subset _ _ hc)
  have hBdig : ∀ c ∈ B, isDigitCode c = true := by
    intro c hc
    rw [hB] at hc
    exact hdig c (List.drop_subset _ _ hc)
  have hnospace : ∀ c ∈ A ++ 46 :: B, isSpaceCode c = false := by
    intro c hc
    rcases List.mem_append.mp hc with hc | hc
    · exact isSpaceCode_of_digit (hAdig c hc)
    · rcases List.mem_cons.mp hc with rfl | hc
      · decide
      · exact isSpaceCode_of_digit (hBdig c hc)
  have hAne46 : ∀ x ∈ A, x ≠ 46 := by
    intro x hx
    have := hAdig x hx
    simp only [isDigitCode, Bool.and_eq_true, decide_eq_true_eq] at this
    omega
  have hPne : P ≠ [] := by
    intro h
    rw [h] at hlen
    simp [numberOfDecimalPlaces] at hlen
  have hall : P.all isDigitCode = true := List.all_eq_true.mpr hdig
  simp only [parseAmount, trimCodes_of_no_space hnospace,
    findPointIndex_append_cons A B hAne46]
  have hflen : (A ++ 46 :: B).length - A.length - 1 = numberOfDecimalPlaces := by
    rw [List.length_append, List.length_cons, hBlen]
    omega
  rw [hflen, stripTrailingZeros_at_limit]
  dsimp only
  rw [if_neg (lt_irrefl _)]
  rw [eraseIdx_append_cons]
  rw [hA, hB, List.take_append_drop]
  simp only [parseAmountTail]
  rw [if_neg (by simpa [List.isEmpty_iff] using hPne)]
  rw [if_neg (by simp [hall])]
  rw [if_neg (lt_irrefl _)]
  simp only [fromStringU64]
  rw [if_neg (by simpa [List.isEmpty_iff] using hPne)]
  rw [if_neg (by simp [hall])]
  rw [if_pos hval]

/-- C9: `parseAmount` inverts `formatAmount` on every `uint64_t` value:
the formatted string has exactly `numberOfDecimalPlaces` fractional
digits, and parsing it back recovers the amount. -/
theorem parse_format_roundtrip (a : Nat) (ha : a < U64) :
    parseAmount (formatAmount a) = some a := by
  set Q := (if (toDecimalCodes a).length < numberOfDecimalPlaces + 1 then
    List.replicate (numberOfDecimalPlaces + 1 - (toDecimalCodes a).length) 48 ++
      toDecimalCodes a
    else toDecimalCodes a) with hQ
  have hDne : toDecimalCodes a ≠ [] := toDecimalCodes_ne_nil a
  have hDlen : 1 ≤ (toDecimalCodes a).length := List.length_pos.mpr hDne
  have hdig : ∀ c ∈ Q, isDigitCode c = true := by
    rw [hQ]
    split_ifs with hl
    · intro c hc
      rcases List.mem_append.mp hc with hc | hc
      · rw [List.eq_of_mem_replicate hc]
        decide
      · exact toDecimalCodes_digits a c hc
    · exact toDecimalCodes_digits a
  have hlenQ : numberOfDecimalPlaces + 1 ≤ Q.length := by
    rw [hQ]
    split_ifs with hl
    · rw [List.length_append, List.length_replicate]
      omega
    · omega
  have hvalQ : digitsVal Q = a := by
    rw [hQ]
    split_ifs with hl
    · rw [digitsVal_replicate_48, digitsVal_toDecimalCodes]
    · exact digitsVal_toDecimalCodes a
  have hform : formatAmount a =
      Q.take (Q.length - numberOfDecimalPlaces) ++
        46 :: Q.drop (Q.length - numberOfDecimalPlaces) := by
    rw [hQ]
    rfl
  rw [hform, parseAmount_format_shape Q hdig hlenQ (by rw [hvalQ]; exact ha),
    hvalQ]

/-- C9 witness: the round trip at a concrete amount. -/
theorem parse_format_roundtrip_witness :
    (123456789 : Nat) < U64 ∧
    parseAmount (formatAmount 123456789) = some 123456789 :=
  ⟨by decide, parse_format_roundtrip 123456789 (by decide)⟩

end Syfer
